import Mathlib

/-!
Shallow embedding of the FreeListAllocator repository (files `Allocator.h`,
`FixedAllocator.h`, `FreeListAllocatorCustom.h`, `STLAdaptor.h`).

Modelling conventions.

* Machine integers are `Nat` with explicit `% 2 ^ 64` where the C code can
  wrap (`std::uintptr_t` / `std::size_t` arithmetic).  The `int`-typed
  `size` fields of `FreeBlock` and `AllocationHeader` are analysed
  separately through explicit 32-bit store functions; the state machine
  carries sizes as exact `Nat` values, which agrees with the C fields on
  all values below `2 ^ 31`.
* Struct sizes are the LP64 values: `sizeof(AllocationHeader) = 16`
  (`int` + padding + `uintptr_t`) and `sizeof(FreeBlock) = 24`
  (`int` + padding + two pointers).
* The intrusive doubly linked free list is represented by the sequence of
  nodes reachable from `m_freeBlocks` through `next`, as a
  `List Block` (address and size per node).  The `prev` pointer of each
  node is its predecessor in that sequence; splicing a node in or out of
  the doubly linked list is list surgery on this representation.  The
  defensive stores at lines 104-107 of `FreeListAllocatorCustom.h`
  (`freeBlock->next->prev = freeBlock; freeBlock->prev->next = freeBlock`)
  rewrite adjacency pointers to the values they already have in a
  well-formed list, hence they are the identity on this representation.
* Byte memory is a function `Nat → Nat`.  Metadata stores
  (`AllocationHeader` fields, `FreeBlock` fields) stamp their byte ranges;
  `ZeroedAddresses` clears a range.  The contents of live allocation
  headers are additionally carried as exact values in a ghost table,
  which models loads through `AllocationHeader*` returning the values
  previously stored for that allocation.  A separate word-granularity
  model (`MemModel` below) drops that assumption and resolves the header
  loads against the raw memory, capturing the byte overlap between a
  freed block's `AllocationHeader` and the `FreeBlock` record written
  over it.
-/

namespace FreeListAlloc

/-- LP64 size of `FreeListAllocator::AllocationHeader`
(`int size; uintptr_t adjustment;`). -/
def sizeofAllocationHeader : Nat := 16

/-- LP64 size of `FreeListAllocator::FreeBlock`
(`int size; FreeBlock* next; FreeBlock* prev;`). -/
def sizeofFreeBlock : Nat := 24

/-- Modulus of `std::uintptr_t` / `std::size_t` arithmetic (64-bit). -/
def ptrMod : Nat := 2 ^ 64

/-- The local `aligned` of `align_forward_adjustment_with_header`
(`FreeListAllocatorCustom.h` line 230): `(iptr + (alignment - 1u)) & ~(alignment - 1u)`
in 64-bit unsigned arithmetic; the complement of a `std::size_t` value `x`
is `(2^64 - 1) - x`. -/
def aligned_of (iptr alignment : Nat) : Nat :=
  ((iptr + (alignment - 1)) % ptrMod) &&& ((ptrMod - 1) - (alignment - 1))

/-- The local `adjustment` of `align_forward_adjustment_with_header` before
the header bump (line 231): the wrapping unsigned difference `aligned - iptr`. -/
def adjustment0_of (iptr alignment : Nat) : Nat :=
  (aligned_of iptr alignment + (ptrMod - iptr % ptrMod)) % ptrMod

/-- Embedding of `FreeListAllocator::align_forward_adjustment_with_header<AllocationHeader>`
(`FreeListAllocatorCustom.h` lines 226-242).  If the padding to the next
aligned address is smaller than `sizeof(AllocationHeader)` it is bumped by
whole multiples of `alignment` until the header fits. -/
def align_forward_adjustment_with_header (iptr alignment : Nat) : Nat :=
  let adjustment := adjustment0_of iptr alignment
  if adjustment < sizeofAllocationHeader then
    let neededSpace := sizeofAllocationHeader - adjustment
    (adjustment + alignment * ((neededSpace + alignment - 1) / alignment)) % ptrMod
  else
    adjustment

/-- One node of the intrusive free list: its address and its `size` field.
The `next` and `prev` pointers are represented by the position of the node
in the list of nodes reachable from `m_freeBlocks`. -/
structure Block where
  addr : Nat
  size : Nat
deriving DecidableEq, Repr

/-- Exact contents of a live `FreeListAllocator::AllocationHeader`
(`FreeListAllocatorCustom.h` lines 43-46). -/
structure AllocationHeader where
  size : Nat
  adjustment : Nat
deriving DecidableEq, Repr

/-- State of a `FreeListAllocator` object: the free list reachable from
`m_freeBlocks`, the counters inherited from `Allocator`, a ghost table of
the live allocation headers (payload address to header contents), and the
byte memory of the arena.  Metadata stores stamp their byte ranges with the
marker value 1; their exact encodings are layout-specific and are resolved
in the word-granularity model further below. -/
structure AllocatorState where
  freeList : List Block
  headers : List (Nat × AllocationHeader)
  m_usedBytes : Nat
  m_numAllocations : Nat
  m_size : Nat
  m_start : Nat
  mem : Nat → Nat

/-- Store the value `v` into every byte of `[lo, hi)`. -/
def setRange (m : Nat → Nat) (lo hi v : Nat) : Nat → Nat :=
  fun a => if lo ≤ a ∧ a < hi then v else m a

/-- Embedding of `FreeListAllocator::ZeroedAddresses`
(`FreeListAllocatorCustom.h` lines 257-262): write zero into every byte
from `ptr_addr` up to but excluding `zero_addr`. -/
def ZeroedAddresses (m : Nat → Nat) (ptr_addr zero_addr : Nat) : Nat → Nat :=
  fun a => if ptr_addr ≤ a ∧ a < zero_addr then 0 else m a

/-- A client write of `n` bytes of pattern `f` at payload address `p`. -/
def writeBytes (m : Nat → Nat) (p n : Nat) (f : Nat → Nat) : Nat → Nat :=
  fun a => if p ≤ a ∧ a < p + n then f (a - p) else m a

/-- The strict improvement test of line 101:
`bestFit == nullptr || freeBlock->size < bestFit->size`. -/
def betterThan (sz : Nat) : Option (Block × Nat × Nat) → Bool
  | none => true
  | some best => decide (sz < best.1.size)

/-- The search loop of `FreeListAllocator::Allocate`
(`FreeListAllocatorCustom.h` lines 96-115): walk the free list; for each
node compute the candidate adjustment and total footprint; remember the
first node of least `size` among those with `size > totalSize`, together
with its adjustment and total size.  The defensive neighbor stores of
lines 104-107 restore pointers a well-formed list already has and do not
change the represented list. -/
def findBest (size align : Nat) : List Block → Option (Block × Nat × Nat) →
    Option (Block × Nat × Nat)
  | [], bestFit => bestFit
  | freeBlock :: rest, bestFit =>
    let adjustment := align_forward_adjustment_with_header freeBlock.addr align
    let totalSize := size + adjustment + sizeofAllocationHeader
    let bestFit' :=
      if decide (totalSize < freeBlock.size) && betterThan freeBlock.size bestFit then
        some (freeBlock, adjustment, totalSize)
      else bestFit
    findBest size align rest bestFit'

/-- A free block qualifies for the request when its `size` field strictly
exceeds the candidate total footprint (line 101). -/
def qualifies (size align : Nat) (b : Block) : Prop :=
  size + align_forward_adjustment_with_header b.addr align + sizeofAllocationHeader < b.size

instance (size align : Nat) (b : Block) : Decidable (qualifies size align b) :=
  inferInstanceAs (Decidable (size + align_forward_adjustment_with_header b.addr align +
    sizeofAllocationHeader < b.size))

/-- Unlink the first node whose address is `a` (lines 124-130). -/
def removeBlock : List Block → Nat → List Block
  | [], _ => []
  | b :: rest, a => if b.addr = a then rest else b :: removeBlock rest a

/-- Splice `nb` into the place of the first node whose address is `a`
(lines 134-144). -/
def replaceBlock : List Block → Nat → Block → List Block
  | [], _, _ => []
  | b :: rest, a, nb => if b.addr = a then nb :: rest else b :: replaceBlock rest a nb

/-- Error outcomes: `badAlloc` is the `throw std::bad_alloc()` of line 118;
`invalidFree` marks a `Free` call whose argument is not a live allocation,
which the C code leaves undefined. -/
inductive AllocError where
  | badAlloc
  | invalidFree
deriving DecidableEq, Repr

/-- Embedding of `FreeListAllocator::Allocate`
(`FreeListAllocatorCustom.h` lines 89-158).  Search for the best fit; throw
`bad_alloc` when none qualifies; consume the whole block when the leftover
could not host a header, otherwise split it in place; write the
`AllocationHeader` just below the aligned payload address; bump the
counters; return the aligned payload address. -/
def Allocate (s : AllocatorState) (size alignment : Nat) :
    Except AllocError (AllocatorState × Nat) :=
  match findBest size alignment s.freeList none with
  | none => .error .badAlloc
  | some (bestFit, bestFitAdjustment, bestFitTotalSize) =>
    let carved :=
      if bestFit.size ≤ bestFitTotalSize + sizeofAllocationHeader then
        (removeBlock s.freeList bestFit.addr, bestFit.size, s.mem)
      else
        let newBlock : Block := ⟨bestFit.addr + bestFitTotalSize,
          bestFit.size - bestFitTotalSize⟩
        (replaceBlock s.freeList bestFit.addr newBlock, bestFitTotalSize,
          setRange s.mem newBlock.addr (newBlock.addr + sizeofFreeBlock) 1)
    let alignedAddr := bestFit.addr + bestFitAdjustment
    let mem2 := setRange carved.2.2 (alignedAddr - sizeofAllocationHeader) alignedAddr 1
    .ok ({ s with
            freeList := carved.1,
            headers := (alignedAddr, ⟨carved.2.1, bestFitAdjustment⟩) :: s.headers,
            m_usedBytes := s.m_usedBytes + carved.2.1,
            m_numAllocations := s.m_numAllocations + 1,
            mem := mem2 }, alignedAddr)

/-- Look up the live header written for payload address `ptr`. -/
def lookupHeader : List (Nat × AllocationHeader) → Nat → Option AllocationHeader
  | [], _ => none
  | (p, h) :: rest, ptr => if p = ptr then some h else lookupHeader rest ptr

/-- Drop the live header of payload address `ptr`. -/
def removeHeader : List (Nat × AllocationHeader) → Nat → List (Nat × AllocationHeader)
  | [], _ => []
  | (p, h) :: rest, ptr => if p = ptr then rest else (p, h) :: removeHeader rest ptr

/-- Embedding of `FreeListAllocator::Free`
(`FreeListAllocatorCustom.h` lines 161-223).  Recover the block bounds from
the header written at allocation time; scan the free list for the first
node at or above the block start; materialize a `FreeBlock` record there;
coalesce with the predecessor when it ends at the block start and with the
successor when the block ends at its address; zero from the payload start
to the block end; update the counters. -/
def Free (s : AllocatorState) (ptr : Nat) : Except AllocError AllocatorState :=
  match lookupHeader s.headers ptr with
  | none => .error .invalidFree
  | some header =>
    let blockStart := ptr - header.adjustment
    let blockSize := header.size
    let pre := s.freeList.takeWhile (fun b => decide (b.addr < blockStart))
    let suf := s.freeList.dropWhile (fun b => decide (b.addr < blockStart))
    let mem0 := setRange s.mem blockStart (blockStart + sizeofFreeBlock) 1
    let newBlock : Block := ⟨blockStart, blockSize⟩
    let backward :=
      match pre.getLast? with
      | some p =>
        if p.addr + p.size = blockStart then
          (pre.dropLast, (⟨p.addr, p.size + blockSize⟩ : Block))
        else (pre, newBlock)
      | none => (pre, newBlock)
    let forward :=
      match suf with
      | nxt :: rest =>
        if backward.2.addr + backward.2.size = nxt.addr then
          ((⟨backward.2.addr, backward.2.size + nxt.size⟩ : Block), rest)
        else (backward.2, suf)
      | [] => (backward.2, [])
    let mem1 := ZeroedAddresses mem0 (blockStart + header.adjustment)
      (blockStart + blockSize)
    .ok { s with
          freeList := backward.1 ++ forward.1 :: forward.2,
          headers := removeHeader s.headers ptr,
          m_usedBytes := s.m_usedBytes - blockSize,
          m_numAllocations := s.m_numAllocations - 1,
          mem := mem1 }

/-- Embedding of the constructors: `Allocator::Allocator`
(`Allocator.h` lines 40-48, `assert(sizeBytes > 0)`) followed by
`FreeListAllocator::FreeListAllocator` (`FreeListAllocatorCustom.h` lines
49-57, `assert(sizeBytes > sizeof(FreeBlock))`, then the single free block
covering the whole arena).  A failed assertion aborts construction. -/
def mkFreeListAllocator (sizeBytes start : Nat) (m : Nat → Nat) : Option AllocatorState :=
  if sizeBytes > 0 then
    if sizeBytes > sizeofFreeBlock then
      some { freeList := [⟨start, sizeBytes⟩],
             headers := [],
             m_usedBytes := 0,
             m_numAllocations := 0,
             m_size := sizeBytes,
             m_start := start,
             mem := setRange m start (start + sizeofFreeBlock) 1 }
    else none
  else none

/-- One client call against the allocator. -/
inductive Op where
  | alloc (size alignment : Nat)
  | dealloc (ptr : Nat)
deriving DecidableEq, Repr

/-- Execute one call. -/
def step (s : AllocatorState) : Op → Except AllocError AllocatorState
  | .alloc size alignment => (Allocate s size alignment).map Prod.fst
  | .dealloc ptr => Free s ptr

/-- Execute a sequence of calls, stopping at the first failure. -/
def run : AllocatorState → List Op → Except AllocError AllocatorState
  | s, [] => .ok s
  | s, op :: ops =>
    match step s op with
    | .error e => .error e
    | .ok s2 => run s2 ops

/-- Adjacent free-list nodes sit at strictly ascending addresses and do not
overlap: the first ends at or before the second starts. -/
def blockFits (b1 b2 : Block) : Prop :=
  b1.addr < b2.addr ∧ b1.addr + b1.size ≤ b2.addr

instance : DecidableRel blockFits := fun b1 b2 =>
  inferInstanceAs (Decidable (b1.addr < b2.addr ∧ b1.addr + b1.size ≤ b2.addr))

/-- The free list is in strictly ascending address order with no two nodes
overlapping. -/
def ordered (l : List Block) : Prop :=
  List.Chain' blockFits l

instance (l : List Block) : Decidable (ordered l) :=
  inferInstanceAs (Decidable (List.Chain' blockFits l))

/-- Total footprint of the live allocations recorded in the header table. -/
def sumFootprints (hs : List (Nat × AllocationHeader)) : Nat :=
  (hs.map (fun e => e.2.size)).sum

/-- The bookkeeping counters agree with the live header table. -/
def CountersInv (s : AllocatorState) : Prop :=
  s.m_usedBytes = sumFootprints s.headers ∧ s.m_numAllocations = s.headers.length

instance : IsTrans Block blockFits :=
  ⟨fun _ _ _ h1 h2 => ⟨Nat.lt_trans h1.1 h2.1, Nat.le_trans h1.2 (Nat.le_of_lt h2.1)⟩⟩

/-- A freshly constructed allocator over a 300-byte arena at address 4096,
used to instantiate the general theorems on concrete data. -/
def demoState : AllocatorState :=
  { freeList := [⟨4096, 300⟩], headers := [], m_usedBytes := 0, m_numAllocations := 0,
    m_size := 300, m_start := 4096, mem := fun _ => 0 }

/-- The state after `Allocate(8, 8)` on `demoState`: the block is split, the
header of the 40-byte footprint is recorded at payload address 4112. -/
def demoState2 : AllocatorState :=
  { freeList := [⟨4136, 260⟩], headers := [(4112, ⟨40, 16⟩)], m_usedBytes := 40,
    m_numAllocations := 1, m_size := 300, m_start := 4096,
    mem := setRange (setRange (fun _ => 0) 4136 4160 1) 4096 4112 1 }

/-- The state after `Allocate(8, 8)` followed by `Free` of the returned
pointer on `demoState`: the free list is whole again and the counters are
back to zero. -/
def demoState3 : AllocatorState :=
  { freeList := [⟨4096, 300⟩], headers := [], m_usedBytes := 0, m_numAllocations := 0,
    m_size := 300, m_start := 4096,
    mem := ZeroedAddresses
      (setRange (setRange (setRange (fun _ => 0) 4136 4160 1) 4096 4112 1) 4096 4120 1)
      4112 4136 }

/-- The three equal allocations of the coalescing scenario: 8 bytes each
from a fresh 300-byte arena at 4096, returning the contiguous payloads
4112, 4152 and 4192 (each block has footprint 40). -/
def c5Alloc3 : Option (Nat × Nat × Nat) :=
  (mkFreeListAllocator 300 4096 (fun _ => 0)).bind fun s0 =>
    (Allocate s0 8 8).toOption.bind fun r1 =>
      (Allocate r1.1 8 8).toOption.bind fun r2 =>
        (Allocate r2.1 8 8).toOption.map fun r3 => (r1.2, r2.2, r3.2)

/-- Free list left by the coalescing scenario: three 8-byte allocations
from a fresh 300-byte arena at 4096, then frees in the given order. -/
def c5Run (order : List Nat) : Option (List Block) :=
  (mkFreeListAllocator 300 4096 (fun _ => 0)).bind fun s0 =>
    (run s0 ([Op.alloc 8 8, Op.alloc 8 8, Op.alloc 8 8] ++ order.map Op.dealloc)).toOption.map
      fun s => s.freeList

/-- Two's-complement value held by the 32-bit `int` `size` field of
`FreeBlock` (`FreeListAllocatorCustom.h` line 37) or `AllocationHeader`
(line 44) after a `std::size_t` value `n` is assigned to it. -/
def intSizeFieldStore (n : Nat) : Int :=
  ((n % 2 ^ 32 : Nat) : Int) - (if n % 2 ^ 32 < 2 ^ 31 then 0 else (2 ^ 32 : Int))

/-- Value held by the pointer-width `uintptr_t` `adjustment` field of
`AllocationHeader` (line 45) after a `std::size_t` value `n` is assigned
to it. -/
def uintptrFieldStore (n : Nat) : Nat := n % 2 ^ 64

/-- The bookkeeping-field property exactly as the spec states it: the
`size` fields of `AllocationHeader` and `FreeBlock` and the `adjustment`
field are pointer-width, so every value representable in the 64-bit
address space is stored exactly, without truncation. -/
def SizeFieldsPointerWidth : Prop :=
  ∀ n : Nat, n < 2 ^ 64 → intSizeFieldStore n = (n : Int) ∧ uintptrFieldStore n = n

/-- Embedding of `STLAdaptor::operator==` for an allocator type derived
from `FixedAllocator` (`STLAdaptor.h` lines 52-57): two bindings compare
equal exactly when the allocators they reference report the same arena
start address (`GetStart`). -/
def STLAdaptor_beq (a b : AllocatorState) : Bool :=
  a.m_start == b.m_start

/-- An allocator over a second, independently constructed arena at start
address 8192. -/
def demoStateB : AllocatorState :=
  { demoState with m_start := 8192 }

/-- The state produced by constructing a 300-byte arena at 4096 over
zeroed backing memory: the `FreeBlock` record is stamped at the start. -/
def demoInit : AllocatorState :=
  { freeList := [⟨4096, 300⟩], headers := [], m_usedBytes := 0, m_numAllocations := 0,
    m_size := 300, m_start := 4096, mem := setRange (fun _ => 0) 4096 4120 1 }

end FreeListAlloc

/-!
Word-granularity model of `FreeListAllocator::Allocate` and
`FreeListAllocator::Free`, used to settle the zero-on-free claim.  Memory
is a map from byte addresses to the 8-byte little-endian word starting
there; every field accessed in the modeled scenarios sits at an
8-byte-aligned address and holds a value below `2 ^ 31`, so one word
faithfully carries one field.  LP64 layout: a `FreeBlock` at address `b`
keeps `size` in the word at `b`, `next` at `b + 8` and `prev` at `b + 16`;
an `AllocationHeader` at address `h` keeps `size` at `h` and `adjustment`
at `h + 8`; a null pointer is the value 0.  Unlike the list model above,
loads through `AllocationHeader*` here read whatever the raw memory holds,
so the overlap between a freed block's header and the `FreeBlock` record
written over it (both ranges share `[blockStart, blockStart + 24)`
whenever `adjustment < 40`) is visible.
-/

namespace MemModel

open FreeListAlloc

/-- Store the word `v` at address `a`. -/
def wwrite (m : Nat → Nat) (a v : Nat) : Nat → Nat :=
  fun x => if x = a then v else m x

/-- Arena state at word granularity: the `m_freeBlocks` head pointer, the
raw memory and the two counters. -/
structure MState where
  m_freeBlocks : Nat
  mem : Nat → Nat
  m_usedBytes : Nat
  m_numAllocations : Nat

/-- The search loop of `Allocate` (`FreeListAllocatorCustom.h` lines
96-115) over raw memory, with the defensive neighbor stores of lines
104-107, threading the candidate pointer, its adjustment and total size.
The fuel bounds the traversal; it is never exhausted in the modeled
scenarios. -/
def AllocateLoopM (size alignment : Nat) :
    Nat → (Nat → Nat) → Nat → Nat → Nat → Nat → ((Nat → Nat) × Nat × Nat × Nat)
  | 0, mem, _, bestFit, bestAdj, bestTot => (mem, bestFit, bestAdj, bestTot)
  | fuel + 1, mem, freeBlock, bestFit, bestAdj, bestTot =>
    if freeBlock = 0 then (mem, bestFit, bestAdj, bestTot)
    else
      let adjustment := align_forward_adjustment_with_header freeBlock alignment
      let totalSize := size + adjustment + sizeofAllocationHeader
      if totalSize < mem freeBlock ∧ (bestFit = 0 ∨ mem freeBlock < mem bestFit) then
        let mem1 := if mem (freeBlock + 8) ≠ 0
          then wwrite mem (mem (freeBlock + 8) + 16) freeBlock else mem
        let mem2 := if mem1 (freeBlock + 16) ≠ 0
          then wwrite mem1 (mem1 (freeBlock + 16) + 8) freeBlock else mem1
        AllocateLoopM size alignment fuel mem2 (mem2 (freeBlock + 8))
          freeBlock adjustment totalSize
      else
        AllocateLoopM size alignment fuel mem (mem (freeBlock + 8)) bestFit bestAdj bestTot

/-- `FreeListAllocator::Allocate` over raw memory (lines 89-158): search,
`bad_alloc` as `none`, consume or split with every store and load in
source order, header stores (`adjustment` then `size`, lines 151-152),
counter updates, aligned payload address returned. -/
def AllocateM (s : MState) (size alignment : Nat) : Option (MState × Nat) :=
  let r := AllocateLoopM size alignment 64 s.mem s.m_freeBlocks 0 0 0
  let mem := r.1
  let bestFit := r.2.1
  let bestFitAdjustment := r.2.2.1
  let bestFitTotalSize := r.2.2.2
  if bestFit = 0 then none
  else
    let carved :=
      if mem bestFit ≤ bestFitTotalSize + sizeofAllocationHeader then
        let totalSize1 := mem bestFit
        let prv := mem (bestFit + 16)
        let nxt := mem (bestFit + 8)
        let memA := if prv ≠ 0 then wwrite mem (prv + 8) nxt else mem
        let head1 := if prv ≠ 0 then s.m_freeBlocks else nxt
        let memB := if memA (bestFit + 8) ≠ 0
          then wwrite memA (memA (bestFit + 8) + 16) (memA (bestFit + 16)) else memA
        (memB, head1, totalSize1)
      else
        let newBlock := bestFit + bestFitTotalSize
        let memA := wwrite mem newBlock (mem bestFit - bestFitTotalSize)
        let memB := wwrite memA (newBlock + 8) (memA (bestFit + 8))
        let memC := wwrite memB (newBlock + 16) (memB (bestFit + 16))
        let memD := if memC (bestFit + 8) ≠ 0
          then wwrite memC (memC (bestFit + 8) + 16) newBlock else memC
        let memE := if memD (bestFit + 16) ≠ 0
          then wwrite memD (memD (bestFit + 16) + 8) newBlock else memD
        let head1 := if memD (bestFit + 16) ≠ 0 then s.m_freeBlocks else newBlock
        (memE, head1, bestFitTotalSize)
    let alignedAddr := bestFit + bestFitAdjustment
    let header := alignedAddr - sizeofAllocationHeader
    let memH1 := wwrite carved.1 (header + 8) bestFitAdjustment
    let memH2 := wwrite memH1 header carved.2.2
    some ({ m_freeBlocks := carved.2.1, mem := memH2,
            m_usedBytes := s.m_usedBytes + carved.2.2,
            m_numAllocations := s.m_numAllocations + 1 }, alignedAddr)

/-- The insertion scan of `Free` (lines 170-177): first node at or above
`blockStart`, together with its predecessor in traversal order. -/
def FreeScanM : Nat → (Nat → Nat) → Nat → Nat → Nat → (Nat × Nat)
  | 0, _, prevFB, fb, _ => (prevFB, fb)
  | fuel + 1, mem, prevFB, fb, blockStart =>
    if fb ≠ 0 ∧ fb < blockStart then FreeScanM fuel mem fb (mem (fb + 8)) blockStart
    else (prevFB, fb)

/-- `FreeListAllocator::Free` over raw memory (lines 161-223) with every
store and load in source order.  The zero pass of lines 217-219 computes
its start from `header->adjustment` re-read AFTER the `FreeBlock` record
stores of lines 179-182, which aliased that word (`blockStart + 8`)
whenever the adjustment is below 40. -/
def FreeM (s : MState) (ptr : Nat) : MState :=
  let header := ptr - sizeofAllocationHeader
  let blockStart := ptr - s.mem (header + 8)
  let blockSize := s.mem header
  let scan := FreeScanM 64 s.mem 0 s.m_freeBlocks blockStart
  let prevFreeBlock := scan.1
  let freeBlock := scan.2
  let newBlock := blockStart
  let m1 := wwrite s.mem newBlock blockSize
  let m2 := wwrite m1 (newBlock + 8) freeBlock
  let m3 := wwrite m2 (newBlock + 16) prevFreeBlock
  let backward :=
    if m3 (newBlock + 16) ≠ 0 ∧ m3 (newBlock + 16) + m3 (m3 (newBlock + 16)) = newBlock then
      let prv := m3 (newBlock + 16)
      let mA := wwrite m3 prv (m3 prv + m3 newBlock)
      let mB := wwrite mA (prv + 8) (mA (newBlock + 8))
      let mC := if mB (newBlock + 8) ≠ 0
        then wwrite mB (mB (newBlock + 8) + 16) (mB (newBlock + 16)) else mB
      (mC, prv)
    else (m3, newBlock)
  let m4 := backward.1
  let nb2 := backward.2
  let m5 :=
    if m4 (nb2 + 8) ≠ 0 ∧ nb2 + m4 nb2 = m4 (nb2 + 8) then
      let mA := wwrite m4 nb2 (m4 nb2 + m4 (m4 (nb2 + 8)))
      let mB := wwrite mA (nb2 + 8) (mA (mA (nb2 + 8) + 8))
      let mC := if mB (nb2 + 16) ≠ 0
        then wwrite mB (mB (nb2 + 16) + 8) nb2 else mB
      mC
    else m4
  let m6 := if m5 (nb2 + 8) ≠ 0 then wwrite m5 (m5 (nb2 + 8) + 16) nb2 else m5
  let m7 := if m6 (nb2 + 16) ≠ 0 then wwrite m6 (m6 (nb2 + 16) + 8) nb2 else m6
  let head2 := if m6 (nb2 + 16) ≠ 0 then s.m_freeBlocks else nb2
  let zstart := blockStart + m7 (header + 8)
  let zend := blockStart + blockSize
  let m8 := fun a => if zstart ≤ a ∧ a < zend then 0 else m7 a
  { m_freeBlocks := head2, mem := m8,
    m_usedBytes := s.m_usedBytes - blockSize,
    m_numAllocations := s.m_numAllocations - 1 }

/-- Word-level state of a freshly constructed allocator
(`FreeListAllocatorCustom.h` lines 49-57) over zeroed backing memory: one
`FreeBlock` record at the arena start spanning the whole arena. -/
def mkMState (sizeBytes start : Nat) : MState :=
  { m_freeBlocks := start,
    mem := wwrite (wwrite (wwrite (fun _ => 0) start sizeBytes) (start + 8) 0) (start + 16) 0,
    m_usedBytes := 0,
    m_numAllocations := 0 }

/-- The round-trip scenario of the zero-on-free claim at word granularity:
from a fresh 300-byte arena at 4096, `Allocate(8, 8)`, write the pattern
170 into the payload word, `Free`, then `Allocate(8, 8)` again. -/
def roundTripM : Option (MState × Nat) :=
  (AllocateM (mkMState 300 4096) 8 8).bind fun r1 =>
    AllocateM (FreeM { r1.1 with mem := wwrite r1.1.mem r1.2 170 } r1.2) 8 8

/-- The state right after the `Free` of the round-trip scenario. -/
def freedStateM : Option MState :=
  (AllocateM (mkMState 300 4096) 8 8).map fun r1 =>
    FreeM { r1.1 with mem := wwrite r1.1.mem r1.2 170 } r1.2

/-- A `Free` whose block does not touch its free-list successor: from a
fresh 300-byte arena at 4096, `Allocate(24, 8)` twice (payloads 4112 and
4168), write the pattern 170 into the word at 4128 — inside the first
payload, past the 24 bytes the `FreeBlock` record will reuse — and free
the first allocation. -/
def freeSkipZeroM : Option MState :=
  (AllocateM (mkMState 300 4096) 24 8).bind fun r1 =>
    (AllocateM r1.1 24 8).map fun r2 =>
      FreeM { r2.1 with mem := wwrite r2.1.mem (r1.2 + 16) 170 } r1.2

end MemModel

namespace FreeListAlloc

/-- Word-granularity replay of the coalescing scenario: three 8-byte
allocations from a fresh 300-byte arena at 4096, then `Free` of the given
payload addresses in order, all over raw memory. -/
def c5RunM (order : List Nat) : Option MemModel.MState :=
  (MemModel.AllocateM (MemModel.mkMState 300 4096) 8 8).bind fun r1 =>
    (MemModel.AllocateM r1.1 8 8).bind fun r2 =>
      (MemModel.AllocateM r2.1 8 8).map fun r3 =>
        order.foldl MemModel.FreeM r3.1

/-- Clearing the low `k` bits of a value below `2 ^ K` with the mask
`2 ^ K - 2 ^ k` rounds it down to a multiple of `2 ^ k`. -/
theorem and_high_mask {y k K : Nat} (hk : k ≤ K) (hy : y < 2 ^ K) :
    y &&& (2 ^ K - 2 ^ k) = 2 ^ k * (y / 2 ^ k) := by
  have hmask : 2 ^ K - 2 ^ k = 2 ^ k * (2 ^ (K - k) - 1) := by
    have h1 : 2 ^ k * 2 ^ (K - k) = 2 ^ K := by
      rw [← pow_add]
      congr 1
      omega
    have h2 : 2 ^ k * (2 ^ (K - k) - 1) = 2 ^ k * 2 ^ (K - k) - 2 ^ k * 1 := by
      rw [Nat.mul_sub]
    omega
  obtain ⟨q, r, hr, rfl⟩ : ∃ q r, r < 2 ^ k ∧ y = 2 ^ k * q + r :=
    ⟨y / 2 ^ k, y % 2 ^ k, Nat.mod_lt _ (Nat.two_pow_pos k), (Nat.div_add_mod y (2 ^ k)).symm⟩
  have hdiv : (2 ^ k * q + r) / 2 ^ k = q := by
    rw [Nat.mul_add_div (Nat.two_pow_pos k), Nat.div_eq_of_lt hr, Nat.add_zero]
  have hq : q < 2 ^ (K - k) := by
    by_contra hcon
    have h1 : 2 ^ k * 2 ^ (K - k) ≤ 2 ^ k * q :=
      Nat.mul_le_mul_left _ (by omega)
    have h2 : 2 ^ k * 2 ^ (K - k) = 2 ^ K := by
      rw [← pow_add]
      congr 1
      omega
    omega
  rw [hdiv, hmask]
  apply Nat.eq_of_testBit_eq
  intro j
  rw [Nat.testBit_and, Nat.testBit_mul_pow_two_add _ hr, Nat.testBit_mul_pow_two,
    Nat.testBit_mul_pow_two]
  by_cases hj : j < k
  · have hnge : ¬ (j ≥ k) := by omega
    simp [hj, hnge]
  · have hge : j ≥ k := by omega
    simp only [hj, if_false, hge]
    rw [Nat.testBit_two_pow_sub_one]
    by_cases hlt : j - k < K - k
    · simp [hlt]
    · have hz : q.testBit (j - k) = false := by
        apply Nat.testBit_lt_two_pow
        calc q < 2 ^ (K - k) := hq
          _ ≤ 2 ^ (j - k) := Nat.pow_le_pow_right (by omega) (by omega)
      simp [hlt, hz]

/-- For a power-of-two alignment that fits after `iptr` inside the address
space, the mask computation of line 230 rounds `iptr` up to the next
multiple of the alignment: the result lies in `[iptr, iptr + 2 ^ k)` and is
divisible by `2 ^ k`. -/
theorem aligned_of_spec (iptr k : Nat) (hk : k ≤ 63) (hbound : iptr + 2 ^ k ≤ ptrMod) :
    iptr ≤ aligned_of iptr (2 ^ k) ∧ aligned_of iptr (2 ^ k) < iptr + 2 ^ k ∧
      aligned_of iptr (2 ^ k) % 2 ^ k = 0 := by
  have hapos : 0 < 2 ^ k := Nat.two_pow_pos k
  have hx : iptr + (2 ^ k - 1) < 2 ^ 64 := by
    have : ptrMod = 2 ^ 64 := rfl
    omega
  have hmask : 2 ^ 64 - 1 - (2 ^ k - 1) = 2 ^ 64 - 2 ^ k := by
    have hkk : 0 < 2 ^ k := Nat.two_pow_pos k
    omega
  have heq : aligned_of iptr (2 ^ k) =
      2 ^ k * ((iptr + (2 ^ k - 1)) / 2 ^ k) := by
    unfold aligned_of
    have hp : ptrMod = 2 ^ 64 := rfl
    rw [hp, Nat.mod_eq_of_lt hx, hmask, and_high_mask (by omega) hx]
  have hdm := Nat.div_add_mod (iptr + (2 ^ k - 1)) (2 ^ k)
  have hmlt : (iptr + (2 ^ k - 1)) % 2 ^ k < 2 ^ k := Nat.mod_lt _ hapos
  refine ⟨?_, ?_, ?_⟩
  · omega
  · omega
  · rw [heq, Nat.mul_mod_right]

/-- The pre-bump `adjustment` of line 231 is the distance from `iptr` to the
next multiple of the alignment: adding it to `iptr` gives a multiple of
`2 ^ k`, it is smaller than `2 ^ k`, and it is below any other distance with
the same property. -/
theorem adjustment0_spec (iptr k : Nat) (hk : k ≤ 63) (hbound : iptr + 2 ^ k ≤ ptrMod) :
    iptr + adjustment0_of iptr (2 ^ k) = aligned_of iptr (2 ^ k) ∧
      adjustment0_of iptr (2 ^ k) < 2 ^ k ∧
      (iptr + adjustment0_of iptr (2 ^ k)) % 2 ^ k = 0 := by
  obtain ⟨h1, h2, h3⟩ := aligned_of_spec iptr k hk hbound
  have hapos : 0 < 2 ^ k := Nat.two_pow_pos k
  have hiptr : iptr < ptrMod := by omega
  have halum : aligned_of iptr (2 ^ k) < ptrMod := by
    have : ptrMod = 2 ^ 64 := rfl
    omega
  have heq : adjustment0_of iptr (2 ^ k) = aligned_of iptr (2 ^ k) - iptr := by
    unfold adjustment0_of
    rw [Nat.mod_eq_of_lt hiptr]
    have hstep : aligned_of iptr (2 ^ k) + (ptrMod - iptr) =
        (aligned_of iptr (2 ^ k) - iptr) + ptrMod := by omega
    rw [hstep, Nat.add_mod_right, Nat.mod_eq_of_lt (by omega)]
  refine ⟨by omega, by omega, ?_⟩
  rw [heq]
  have : iptr + (aligned_of iptr (2 ^ k) - iptr) = aligned_of iptr (2 ^ k) := by omega
  rw [this]
  exact h3

/-- Any `d` with `(iptr + d) % 2 ^ k = 0` is at least the pre-bump
adjustment, and is congruent to it modulo the alignment. -/
theorem adjustment0_least (iptr k d : Nat) (hk : k ≤ 63) (hbound : iptr + 2 ^ k ≤ ptrMod)
    (hd : (iptr + d) % 2 ^ k = 0) :
    d % 2 ^ k = adjustment0_of iptr (2 ^ k) := by
  obtain ⟨_, h2, h3⟩ := adjustment0_spec iptr k hk hbound
  have hmod : (iptr + d) % 2 ^ k = (iptr + adjustment0_of iptr (2 ^ k)) % 2 ^ k := by
    rw [hd, h3]
  have hcong : d ≡ adjustment0_of iptr (2 ^ k) [MOD 2 ^ k] :=
    Nat.ModEq.add_left_cancel' iptr hmod
  calc d % 2 ^ k = adjustment0_of iptr (2 ^ k) % 2 ^ k := hcong
    _ = adjustment0_of iptr (2 ^ k) := Nat.mod_eq_of_lt h2

/-- Full specification of `align_forward_adjustment_with_header` for a
power-of-two alignment: the adjusted address is aligned, the adjustment
leaves room for the `AllocationHeader` in front of the payload, and it is
the least value doing both. -/
theorem align_forward_spec (iptr k : Nat) (hk : k ≤ 63) (hbound : iptr + 2 ^ k ≤ ptrMod) :
    (iptr + align_forward_adjustment_with_header iptr (2 ^ k)) % 2 ^ k = 0 ∧
      sizeofAllocationHeader ≤ align_forward_adjustment_with_header iptr (2 ^ k) ∧
      ∀ d, sizeofAllocationHeader ≤ d → (iptr + d) % 2 ^ k = 0 →
        align_forward_adjustment_with_header iptr (2 ^ k) ≤ d := by
  obtain ⟨ha1, ha2, ha3⟩ := adjustment0_spec iptr k hk hbound
  have hapos : 0 < 2 ^ k := Nat.two_pow_pos k
  have hasmall : 2 ^ k ≤ 2 ^ 63 := Nat.pow_le_pow_right (by omega) hk
  set adj0 := adjustment0_of iptr (2 ^ k) with hadj0
  by_cases hlt : adj0 < sizeofAllocationHeader
  · have hneed : sizeofAllocationHeader - adj0 ≤ sizeofAllocationHeader := by omega
    set m := (sizeofAllocationHeader - adj0 + 2 ^ k - 1) / 2 ^ k with hm
    have hres : align_forward_adjustment_with_header iptr (2 ^ k) =
        (adj0 + 2 ^ k * m) % ptrMod := by
      unfold align_forward_adjustment_with_header
      rw [← hadj0, if_pos hlt, hm]
    have hmdm := Nat.div_add_mod (sizeofAllocationHeader - adj0 + 2 ^ k - 1) (2 ^ k)
    rw [← hm] at hmdm
    have hmmod : (sizeofAllocationHeader - adj0 + 2 ^ k - 1) % 2 ^ k < 2 ^ k :=
      Nat.mod_lt _ hapos
    have hmub : 2 ^ k * m ≤ sizeofAllocationHeader - adj0 + 2 ^ k - 1 := by omega
    have hmlb : sizeofAllocationHeader - adj0 ≤ 2 ^ k * m := by omega
    have hnowrap : adj0 + 2 ^ k * m < ptrMod := by
      have h16 : sizeofAllocationHeader = 16 := rfl
      have : ptrMod = 2 ^ 64 := rfl
      have h64 : 2 ^ 63 + 2 ^ 63 = 2 ^ 64 := by norm_num
      omega
    rw [hres, Nat.mod_eq_of_lt hnowrap]
    refine ⟨?_, by omega, ?_⟩
    · have : iptr + (adj0 + 2 ^ k * m) = (iptr + adj0) + 2 ^ k * m := by omega
      rw [this, Nat.mul_comm, Nat.add_mul_mod_self_right, ha3]
    · intro d hd16 hdal
      have hdmod := adjustment0_least iptr k d hk hbound hdal
      have hddm := Nat.div_add_mod d (2 ^ k)
      set t := d / 2 ^ k with ht
      have hdrep : d = adj0 + 2 ^ k * t := by omega
      have htlb : sizeofAllocationHeader - adj0 ≤ 2 ^ k * t := by omega
      have htm : m ≤ t := by
        have hdiv : (sizeofAllocationHeader - adj0 + 2 ^ k - 1) / 2 ^ k ≤
            (2 ^ k * t + 2 ^ k - 1) / 2 ^ k :=
          Nat.div_le_div_right (by omega)
        have hsplit : 2 ^ k * t + 2 ^ k - 1 = 2 ^ k * t + (2 ^ k - 1) := by omega
        have hqq : (2 ^ k * t + (2 ^ k - 1)) / 2 ^ k = t + (2 ^ k - 1) / 2 ^ k :=
          Nat.mul_add_div hapos t (2 ^ k - 1)
        have hzz : (2 ^ k - 1) / 2 ^ k = 0 := Nat.div_eq_of_lt (by omega)
        rw [hm]
        rw [hsplit, hqq, hzz] at hdiv
        omega
      have : 2 ^ k * m ≤ 2 ^ k * t := Nat.mul_le_mul_left _ htm
      omega
  · have hres : align_forward_adjustment_with_header iptr (2 ^ k) = adj0 := by
      unfold align_forward_adjustment_with_header
      rw [← hadj0, if_neg hlt]
    rw [hres]
    refine ⟨ha3, by omega, ?_⟩
    intro d _ hdal
    have hdmod := adjustment0_least iptr k d hk hbound hdal
    have := Nat.mod_le d (2 ^ k)
    omega

/-- Unlinking by address removes exactly the distinguished node when no
earlier node shares its address. -/
theorem removeBlock_append (l1 l2 : List Block) (b : Block)
    (h : ∀ x ∈ l1, x.addr ≠ b.addr) :
    removeBlock (l1 ++ b :: l2) b.addr = l1 ++ l2 := by
  induction l1 with
  | nil => simp [removeBlock]
  | cons x xs ih =>
    simp only [List.cons_append, removeBlock, List.append_eq]
    rw [if_neg (h x (by simp)), ih (fun y hy => h y (List.mem_cons_of_mem _ hy))]

/-- Splicing by address replaces exactly the distinguished node when no
earlier node shares its address. -/
theorem replaceBlock_append (l1 l2 : List Block) (b nb : Block)
    (h : ∀ x ∈ l1, x.addr ≠ b.addr) :
    replaceBlock (l1 ++ b :: l2) b.addr nb = l1 ++ nb :: l2 := by
  induction l1 with
  | nil => simp [replaceBlock]
  | cons x xs ih =>
    simp only [List.cons_append, replaceBlock, List.append_eq]
    rw [if_neg (h x (by simp)), ih (fun y hy => h y (List.mem_cons_of_mem _ hy))]

/-- In an ordered list every node before the distinguished one sits at a
strictly smaller address. -/
theorem ordered_prefix_lt (l1 l2 : List Block) (b : Block)
    (hord : ordered (l1 ++ b :: l2)) :
    ∀ x ∈ l1, x.addr < b.addr := by
  have hpw : List.Pairwise blockFits (l1 ++ b :: l2) :=
    List.chain'_iff_pairwise.mp hord
  intro x hx
  exact ((List.pairwise_append.mp hpw).2.2 x hx b (by simp)).1

/-- Replacing the distinguished node of an ordered list by a nonempty block
inside its former footprint keeps the list ordered. -/
theorem ordered_replace (l1 l2 : List Block) (b nb : Block)
    (hord : ordered (l1 ++ b :: l2))
    (hle : b.addr ≤ nb.addr) (hend : nb.addr + nb.size ≤ b.addr + b.size)
    (hpos : 0 < nb.size) :
    ordered (l1 ++ nb :: l2) := by
  rw [ordered, List.chain'_append] at hord ⊢
  obtain ⟨h1, h2, h3⟩ := hord
  rw [List.chain'_cons'] at h2 ⊢
  refine ⟨h1, ⟨?_, h2.2⟩, ?_⟩
  · intro y hy
    have hby := h2.1 y hy
    unfold blockFits at hby ⊢
    omega
  · intro x hx y hy
    have hxb := h3 x hx b (by simp)
    have hyn : y = nb := by
      have hh := hy
      simp only [List.head?_cons, Option.mem_def, Option.some_inj] at hh
      exact hh.symm
    subst hyn
    unfold blockFits at hxb ⊢
    omega

/-- Once the search loop holds a candidate it never returns the null
candidate. -/
theorem findBest_some_acc (size align : Nat) :
    ∀ (l : List Block) (r0 : Block × Nat × Nat),
      findBest size align l (some r0) ≠ none := by
  intro l
  induction l with
  | nil => intro r0; simp [findBest]
  | cons fb rest ih =>
    intro r0
    simp only [findBest]
    split
    · exact ih _
    · exact ih _

/-- The search returns the null candidate exactly when it started with it
and no traversed block qualifies (lines 96-118). -/
theorem findBest_eq_none (size align : Nat) :
    ∀ (l : List Block) (acc : Option (Block × Nat × Nat)),
      findBest size align l acc = none ↔
        acc = none ∧ ∀ b ∈ l, ¬ qualifies size align b := by
  intro l
  induction l with
  | nil => intro acc; simp [findBest]
  | cons fb rest ih =>
    intro acc
    simp only [findBest]
    split
    · rename_i hcond
      obtain ⟨hq, _⟩ := Bool.and_eq_true_iff.mp hcond
      have hqual : qualifies size align fb := of_decide_eq_true hq
      constructor
      · intro h
        exact absurd ((ih _).mp h).1 (by simp)
      · rintro ⟨-, hall⟩
        exact absurd hqual (hall fb (by simp))
    · rename_i hcond
      rcases acc with - | r0
      · have hnq : ¬ qualifies size align fb := by
          intro hqual
          apply hcond
          simp only [betterThan, Bool.and_true]
          exact decide_eq_true hqual
        rw [ih]
        constructor
        · rintro ⟨-, hall⟩
          refine ⟨rfl, ?_⟩
          intro b hb
          rcases List.mem_cons.mp hb with hb | hb
          · exact hb ▸ hnq
          · exact hall b hb
        · rintro ⟨-, hall⟩
          exact ⟨rfl, fun b hb => hall b (List.mem_cons_of_mem _ hb)⟩
      · constructor
        · intro h
          exact absurd h (findBest_some_acc size align rest r0)
        · rintro ⟨h, -⟩
          exact absurd h (by simp)

/-- Soundness of the search result: it is either the starting candidate or
a qualifying block of the list together with its own adjustment and total
footprint (line 98-111). -/
theorem findBest_sound (size align : Nat) :
    ∀ (l : List Block) (acc : Option (Block × Nat × Nat)) (r : Block × Nat × Nat),
      findBest size align l acc = some r →
        acc = some r ∨
          (r.1 ∈ l ∧ qualifies size align r.1 ∧
            r.2.1 = align_forward_adjustment_with_header r.1.addr align ∧
            r.2.2 = size + r.2.1 + sizeofAllocationHeader) := by
  intro l
  induction l with
  | nil =>
    intro acc r h
    simp [findBest] at h
    exact Or.inl h
  | cons fb rest ih =>
    intro acc r h
    simp only [findBest] at h
    rcases hcond : (decide (size + align_forward_adjustment_with_header fb.addr align +
        sizeofAllocationHeader < fb.size) && betterThan fb.size acc) with - | -
    · rw [hcond, if_neg (by simp)] at h
      rcases ih acc r h with hl | hr
      · exact Or.inl hl
      · exact Or.inr ⟨List.mem_cons_of_mem _ hr.1, hr.2⟩
    · rw [hcond, if_pos rfl] at h
      obtain ⟨hq, -⟩ := Bool.and_eq_true_iff.mp hcond
      have hqual : qualifies size align fb := of_decide_eq_true hq
      rcases ih _ r h with hl | hr
      · cases hl
        exact Or.inr ⟨by simp, hqual, rfl, rfl⟩
      · exact Or.inr ⟨List.mem_cons_of_mem _ hr.1, hr.2⟩

/-- Minimality of the search result: its `size` is at most the size of the
starting candidate and of every qualifying block of the list. -/
theorem findBest_min (size align : Nat) :
    ∀ (l : List Block) (acc : Option (Block × Nat × Nat)) (r : Block × Nat × Nat),
      findBest size align l acc = some r →
        (∀ r0, acc = some r0 → r.1.size ≤ r0.1.size) ∧
        (∀ c ∈ l, qualifies size align c → r.1.size ≤ c.size) := by
  intro l
  induction l with
  | nil =>
    intro acc r h
    simp only [findBest] at h
    exact ⟨fun r0 h0 => by rw [h0] at h; cases h; exact Nat.le_refl _, by simp⟩
  | cons fb rest ih =>
    intro acc r h
    simp only [findBest] at h
    rcases hcond : (decide (size + align_forward_adjustment_with_header fb.addr align +
        sizeofAllocationHeader < fb.size) && betterThan fb.size acc) with - | -
    · rw [hcond, if_neg (by simp)] at h
      obtain ⟨hacc, hrest⟩ := ih acc r h
      refine ⟨hacc, ?_⟩
      intro c hc hcq
      rcases List.mem_cons.mp hc with hc | hc
      · subst hc
        have hb : betterThan c.size acc = false := by
          cases hb2 : betterThan c.size acc
          · rfl
          · rw [hb2, Bool.and_true] at hcond
            exact absurd hcq (of_decide_eq_false hcond)
        rcases hacc2 : acc with - | r0
        · rw [hacc2] at hb; simp [betterThan] at hb
        · rw [hacc2] at hb
          simp only [betterThan, decide_eq_false_iff_not, Nat.not_lt] at hb
          exact Nat.le_trans (hacc r0 hacc2) hb
      · exact hrest c hc hcq
    · rw [hcond, if_pos rfl] at h
      obtain ⟨-, hbt⟩ := Bool.and_eq_true_iff.mp hcond
      obtain ⟨hacc, hrest⟩ := ih _ r h
      have hrfb : r.1.size ≤ fb.size := hacc _ rfl
      refine ⟨?_, ?_⟩
      · intro r0 h0
        rw [h0] at hbt
        simp only [betterThan, decide_eq_true_eq] at hbt
        exact Nat.le_trans hrfb (Nat.le_of_lt hbt)
      · intro c hc hcq
        rcases List.mem_cons.mp hc with hc | hc
        · exact hc ▸ hrfb
        · exact hrest c hc hcq

/-- Tie-breaking of the search: unless the starting candidate survives, the
result sits at an index of the list and every earlier qualifying block is
strictly larger, so among equally sized minimal qualifying blocks the first
one in traversal order wins. -/
theorem findBest_first (size align : Nat) :
    ∀ (l : List Block) (acc : Option (Block × Nat × Nat)) (r : Block × Nat × Nat),
      findBest size align l acc = some r →
        acc = some r ∨
          ∃ i : Nat, l[i]? = some r.1 ∧
            (∀ r0, acc = some r0 → r.1.size < r0.1.size) ∧
            (∀ (j : Nat) (c : Block), j < i → l[j]? = some c →
              qualifies size align c → r.1.size < c.size) := by
  intro l
  induction l with
  | nil =>
    intro acc r h
    simp only [findBest] at h
    exact Or.inl h
  | cons fb rest ih =>
    intro acc r h
    simp only [findBest] at h
    rcases hcond : (decide (size + align_forward_adjustment_with_header fb.addr align +
        sizeofAllocationHeader < fb.size) && betterThan fb.size acc) with - | -
    · rw [hcond, if_neg (by simp)] at h
      rcases ih acc r h with hl | ⟨i, hi, haccs, hjs⟩
      · exact Or.inl hl
      · refine Or.inr ⟨i + 1, by simpa using hi, haccs, ?_⟩
        intro j c hj hjc hcq
        match j with
        | 0 =>
          have hc0 : c = fb := by
            have := hjc
            simp only [List.getElem?_cons_zero, Option.some_inj] at this
            exact this.symm
          subst hc0
          have hb : betterThan c.size acc = false := by
            cases hb2 : betterThan c.size acc
            · rfl
            · rw [hb2, Bool.and_true] at hcond
              exact absurd hcq (of_decide_eq_false hcond)
          rcases hacc2 : acc with - | r0
          · rw [hacc2] at hb; simp [betterThan] at hb
          · rw [hacc2] at hb
            simp only [betterThan, decide_eq_false_iff_not, Nat.not_lt] at hb
            exact Nat.lt_of_lt_of_le (haccs r0 hacc2) hb
        | j' + 1 =>
          exact hjs j' c (by omega) (by simpa using hjc) hcq
    · rw [hcond, if_pos rfl] at h
      obtain ⟨-, hbt⟩ := Bool.and_eq_true_iff.mp hcond
      obtain ⟨hacc, -⟩ := findBest_min size align rest _ r h
      have hrfb : r.1.size ≤ fb.size := hacc _ rfl
      rcases ih _ r h with hl | ⟨i, hi, haccs, hjs⟩
      · cases hl
        refine Or.inr ⟨0, by simp, ?_, by omega⟩
        intro r0 h0
        rw [h0] at hbt
        simpa [betterThan] using hbt
      · have hlt : r.1.size < fb.size := haccs _ rfl
        refine Or.inr ⟨i + 1, by simpa using hi, ?_, ?_⟩
        · intro r0 h0
          rw [h0] at hbt
          simp only [betterThan, decide_eq_true_eq] at hbt
          exact Nat.lt_trans hlt hbt
        · intro j c hj hjc hcq
          match j with
          | 0 =>
            have hc0 : c = fb := by
              have := hjc
              simp only [List.getElem?_cons_zero, Option.some_inj] at this
              exact this.symm
            exact hc0 ▸ hlt
          | j' + 1 =>
            exact hjs j' c (by omega) (by simpa using hjc) hcq

/-- Removing the looked-up header entry takes away exactly its footprint
and one table entry. -/
theorem lookupHeader_remove (hs : List (Nat × AllocationHeader)) (ptr : Nat)
    (hd : AllocationHeader) (hl : lookupHeader hs ptr = some hd) :
    hd.size + sumFootprints (removeHeader hs ptr) = sumFootprints hs ∧
      (removeHeader hs ptr).length + 1 = hs.length := by
  induction hs with
  | nil => simp [lookupHeader] at hl
  | cons e rest ih =>
    obtain ⟨p, h0⟩ := e
    by_cases hp : p = ptr
    · subst hp
      simp only [lookupHeader, if_true, eq_self_iff_true, Option.some_inj] at hl
      subst hl
      simp only [removeHeader, if_true, eq_self_iff_true]
      constructor
      · simp [sumFootprints]
      · simp
    · simp only [lookupHeader, if_neg hp] at hl
      obtain ⟨ihs, ihl⟩ := ih hl
      simp only [removeHeader, if_neg hp]
      constructor
      · simp only [sumFootprints, List.map_cons, List.sum_cons] at ihs ⊢
        omega
      · simp only [List.length_cons]
        omega

/-- A looked-up footprint is at most the total footprint of the table. -/
theorem lookupHeader_le_sum (hs : List (Nat × AllocationHeader)) (ptr : Nat)
    (hd : AllocationHeader) (hl : lookupHeader hs ptr = some hd) :
    hd.size ≤ sumFootprints hs := by
  obtain ⟨h1, -⟩ := lookupHeader_remove hs ptr hd hl
  omega

/-- A successful lookup needs a nonempty table. -/
theorem lookupHeader_length_pos (hs : List (Nat × AllocationHeader)) (ptr : Nat)
    (hd : AllocationHeader) (hl : lookupHeader hs ptr = some hd) :
    0 < hs.length := by
  obtain ⟨-, h2⟩ := lookupHeader_remove hs ptr hd hl
  omega

/-- Shape of a successful `Allocate`: the new header is recorded at the
returned address, `m_usedBytes` grows by exactly the recorded footprint and
`m_numAllocations` by one (lines 149-157). -/
theorem Allocate_ok_shape (s : AllocatorState) (size alignment : Nat)
    (s2 : AllocatorState) (p : Nat) (h : Allocate s size alignment = .ok (s2, p)) :
    s2.m_numAllocations = s.m_numAllocations + 1 ∧
      (∀ hd, lookupHeader s2.headers p = some hd →
        s2.m_usedBytes = s.m_usedBytes + hd.size) ∧
      (lookupHeader s2.headers p).isSome = true := by
  unfold Allocate at h
  cases hfb : findBest size alignment s.freeList none with
  | none => rw [hfb] at h; cases h
  | some r =>
    obtain ⟨bestFit, bestFitAdjustment, bestFitTotalSize⟩ := r
    rw [hfb] at h
    simp only [Except.ok.injEq, Prod.mk.injEq] at h
    obtain ⟨hs2, hp⟩ := h
    subst hs2
    subst hp
    refine ⟨rfl, ?_, ?_⟩
    · intro hd hhd
      simp only [lookupHeader, if_true, eq_self_iff_true, Option.some_inj] at hhd
      subst hhd
      rfl
    · simp [lookupHeader]

/-- Shape of a successful `Free` of a live pointer: `m_usedBytes` shrinks by
exactly the footprint recovered from the header and `m_numAllocations` by
one, and the header entry is removed (lines 165-168 and 221-222). -/
theorem Free_ok_shape (s : AllocatorState) (ptr : Nat) (hd : AllocationHeader)
    (hl : lookupHeader s.headers ptr = some hd)
    (s2 : AllocatorState) (h : Free s ptr = .ok s2) :
    s2.m_usedBytes = s.m_usedBytes - hd.size ∧
      s2.m_numAllocations = s.m_numAllocations - 1 ∧
      s2.headers = removeHeader s.headers ptr := by
  unfold Free at h
  rw [hl] at h
  simp only [Except.ok.injEq] at h
  subst h
  exact ⟨rfl, rfl, rfl⟩

/-- `Allocate` preserves the agreement of the counters with the header
table. -/
theorem Allocate_inv (s : AllocatorState) (size alignment : Nat)
    (s2 : AllocatorState) (p : Nat) (hinv : CountersInv s)
    (h : Allocate s size alignment = .ok (s2, p)) : CountersInv s2 := by
  unfold Allocate at h
  cases hfb : findBest size alignment s.freeList none with
  | none => rw [hfb] at h; cases h
  | some r =>
    obtain ⟨bestFit, bestFitAdjustment, bestFitTotalSize⟩ := r
    rw [hfb] at h
    simp only [Except.ok.injEq, Prod.mk.injEq] at h
    obtain ⟨hs2, -⟩ := h
    subst hs2
    obtain ⟨hu, hn⟩ := hinv
    constructor
    · simp [sumFootprints, hu]
      omega
    · simp [hn]

/-- `Free` preserves the agreement of the counters with the header table. -/
theorem Free_inv (s : AllocatorState) (ptr : Nat) (s2 : AllocatorState)
    (hinv : CountersInv s) (h : Free s ptr = .ok s2) : CountersInv s2 := by
  unfold Free at h
  cases hl : lookupHeader s.headers ptr with
  | none => rw [hl] at h; cases h
  | some hd =>
    rw [hl] at h
    simp only [Except.ok.injEq] at h
    subst h
    obtain ⟨hu, hn⟩ := hinv
    obtain ⟨hsum, hlen⟩ := lookupHeader_remove s.headers ptr hd hl
    constructor
    · simp only [hu]
      omega
    · simp only [hn]
      omega

/-- Any successful run of client calls preserves the agreement of the
counters with the header table. -/
theorem run_inv (ops : List Op) (s : AllocatorState) (s2 : AllocatorState)
    (hinv : CountersInv s) (h : run s ops = .ok s2) : CountersInv s2 := by
  induction ops generalizing s with
  | nil =>
    simp only [run, Except.ok.injEq] at h
    subst h
    exact hinv
  | cons op rest ih =>
    simp only [run] at h
    cases hstep : step s op with
    | error e => rw [hstep] at h; cases h
    | ok s1 =>
      rw [hstep] at h
      apply ih s1 ?_ h
      cases op with
      | alloc size alignment =>
        simp only [step] at hstep
        cases ha : Allocate s size alignment with
        | error e => rw [ha] at hstep; cases hstep
        | ok pr =>
          rw [ha] at hstep
          simp only [Except.map] at hstep
          cases hstep
          exact Allocate_inv s size alignment pr.1 pr.2 hinv ha
      | dealloc ptr =>
        simp only [step] at hstep
        exact Free_inv s ptr s1 hinv hstep

/-- C1.  The block carved by `Allocate` is chosen by best fit: the search
returns a block of the free list whose `size` strictly exceeds its own
total footprint `size + adjustment + sizeof(AllocationHeader)` (adjustment
computed per candidate), of least `size` among all such blocks, and first
in traversal order among equally sized ones; in particular with free
blocks of sizes 50, 200 and 100 a request whose footprint fits the
100-sized block but not the 50-sized one is served from the 100-sized
block, never the 200-sized one. -/
theorem allocate_best_fit :
    (∀ (size align : Nat) (l : List Block) (b : Block) (adj tot : Nat),
      findBest size align l none = some (b, adj, tot) →
        b ∈ l ∧ qualifies size align b ∧
        adj = align_forward_adjustment_with_header b.addr align ∧
        tot = size + adj + sizeofAllocationHeader ∧
        (∀ c ∈ l, qualifies size align c → b.size ≤ c.size) ∧
        (∃ i : Nat, l[i]? = some b ∧ ∀ (j : Nat) (c : Block), j < i → l[j]? = some c →
          qualifies size align c → b.size < c.size)) ∧
    (findBest 40 8 [⟨1000, 50⟩, ⟨2000, 200⟩, ⟨3000, 100⟩] none).map (fun r => r.1) =
      some ⟨3000, 100⟩ := by
  constructor
  · intro size align l b adj tot hfb
    have hsound := findBest_sound size align l none (b, adj, tot) hfb
    simp only [false_or] at hsound
    rcases hsound with hsound | hsound
    · cases hsound
    obtain ⟨hmem, hqual, hadj, htot⟩ := hsound
    have hmin := (findBest_min size align l none (b, adj, tot) hfb).2
    have hfirst := findBest_first size align l none (b, adj, tot) hfb
    rcases hfirst with hfirst | ⟨i, hi, -, hjs⟩
    · cases hfirst
    exact ⟨hmem, hqual, hadj, htot, hmin, i, hi, hjs⟩
  · rfl

/-- Concrete instantiation of the best-fit theorem at the 50/200/100
scenario: the chosen block is a qualifying member of the list of least
size. -/
theorem allocate_best_fit_witness :
    (⟨3000, 100⟩ : Block) ∈ [(⟨1000, 50⟩ : Block), ⟨2000, 200⟩, ⟨3000, 100⟩] ∧
      qualifies 40 8 ⟨3000, 100⟩ ∧
      ∀ c ∈ [(⟨1000, 50⟩ : Block), ⟨2000, 200⟩, ⟨3000, 100⟩],
        qualifies 40 8 c → (100 : Nat) ≤ c.size := by
  have h := allocate_best_fit.1 40 8 [⟨1000, 50⟩, ⟨2000, 200⟩, ⟨3000, 100⟩]
    ⟨3000, 100⟩ 16 72 rfl
  exact ⟨h.1, h.2.1, h.2.2.2.2.1⟩

/-- C2.  `Allocate` fails with `bad_alloc` exactly when no free block
qualifies, and in that case it never produces a success, null pointer or
otherwise.  In this functional embedding the failing call returns no
successor state at all, which matches the C code: the throw at line 118
happens before any store, and the search loop stores only inside its
qualifying branch (lines 101-112), so a call with no qualifying block
leaves every counter and every free-list node (size, next, prev)
untouched. -/
theorem allocate_out_of_memory (s : AllocatorState) (size alignment : Nat) :
    (Allocate s size alignment = .error .badAlloc ↔
      ∀ b ∈ s.freeList, ¬ qualifies size alignment b) ∧
    ((∀ b ∈ s.freeList, ¬ qualifies size alignment b) →
      ∀ s2 p, Allocate s size alignment ≠ .ok (s2, p)) := by
  have hchar : Allocate s size alignment = .error .badAlloc ↔
      findBest size alignment s.freeList none = none := by
    unfold Allocate
    cases hfb : findBest size alignment s.freeList none with
    | none => simp
    | some r =>
      obtain ⟨bestFit, bestFitAdjustment, bestFitTotalSize⟩ := r
      simp
  have hnone := findBest_eq_none size alignment s.freeList none
  simp only [true_and] at hnone
  constructor
  · rw [hchar, hnone]
  · intro hno s2 p hok
    have : Allocate s size alignment = .error .badAlloc := by
      rw [hchar, hnone]
      exact hno
    rw [this] at hok
    cases hok

/-- Concrete instantiation of the out-of-memory theorem: a request too
large for the single 300-byte block fails and yields no success state. -/
theorem allocate_out_of_memory_witness :
    Allocate demoState 400 8 = Except.error AllocError.badAlloc ∧
      ∀ s2 p, Allocate demoState 400 8 ≠ Except.ok (s2, p) := by
  have h := allocate_out_of_memory demoState 400 8
  have hno : ∀ b ∈ demoState.freeList, ¬ qualifies 400 8 b := by decide
  exact ⟨h.1.mpr hno, h.2 hno⟩

/-- C3.  For a power-of-two alignment `2 ^ k` that fits after the candidate
address inside the 64-bit address space, the computed adjustment makes the
payload address a multiple of the alignment, is at least
`sizeof(AllocationHeader)` so the header fits in the gap before the
payload, and is the least value with both properties; consequently every
pointer returned by a successful `Allocate` with such an alignment is a
multiple of it. -/
theorem adjustment_aligned_minimal :
    (∀ iptr k : Nat, k ≤ 63 → iptr + 2 ^ k ≤ ptrMod →
      (iptr + align_forward_adjustment_with_header iptr (2 ^ k)) % 2 ^ k = 0 ∧
      sizeofAllocationHeader ≤ align_forward_adjustment_with_header iptr (2 ^ k) ∧
      (∀ d : Nat, sizeofAllocationHeader ≤ d → (iptr + d) % 2 ^ k = 0 →
        align_forward_adjustment_with_header iptr (2 ^ k) ≤ d)) ∧
    (∀ (s : AllocatorState) (size k : Nat) (s2 : AllocatorState) (p : Nat), k ≤ 63 →
      (∀ b ∈ s.freeList, b.addr + 2 ^ k ≤ ptrMod) →
      Allocate s size (2 ^ k) = .ok (s2, p) → p % 2 ^ k = 0) := by
  constructor
  · intro iptr k hk hbound
    exact align_forward_spec iptr k hk hbound
  · intro s size k s2 p hk hbound h
    unfold Allocate at h
    cases hfb : findBest size (2 ^ k) s.freeList none with
    | none => rw [hfb] at h; cases h
    | some r =>
      obtain ⟨bestFit, bestFitAdjustment, bestFitTotalSize⟩ := r
      rw [hfb] at h
      simp only [Except.ok.injEq, Prod.mk.injEq] at h
      obtain ⟨-, hp⟩ := h
      have hsound := findBest_sound size (2 ^ k) s.freeList none
        (bestFit, bestFitAdjustment, bestFitTotalSize) hfb
      rcases hsound with hsound | ⟨hmem, -, hadj, -⟩
      · cases hsound
      have hmem2 : bestFit ∈ s.freeList := hmem
      have hadj2 : bestFitAdjustment =
          align_forward_adjustment_with_header bestFit.addr (2 ^ k) := hadj
      have hspec := (align_forward_spec bestFit.addr k hk (hbound bestFit hmem2)).1
      rw [← hp, hadj2]
      exact hspec

/-- Concrete instantiation of the alignment theorem at `iptr = 4097`,
alignment 8, and at a successful allocation from the demo arena. -/
theorem adjustment_aligned_minimal_witness :
    ((4097 + align_forward_adjustment_with_header 4097 (2 ^ 3)) % 2 ^ 3 = 0 ∧
      sizeofAllocationHeader ≤ align_forward_adjustment_with_header 4097 (2 ^ 3) ∧
      (∀ d : Nat, sizeofAllocationHeader ≤ d → (4097 + d) % 2 ^ 3 = 0 →
        align_forward_adjustment_with_header 4097 (2 ^ 3) ≤ d)) ∧
    4112 % 2 ^ 3 = 0 :=
  ⟨adjustment_aligned_minimal.1 4097 3 (by omega) (by norm_num [ptrMod]),
    adjustment_aligned_minimal.2 demoState 8 3 demoState2 4112 (by omega)
      (by intro b hb; simp [demoState] at hb; subst hb; norm_num [ptrMod]) rfl⟩

/-- C4.  A successful `Allocate` that selected block `b` with footprint
`tot` either consumes `b` whole — when the leftover `b.size - tot` is at
most `sizeof(AllocationHeader)`, the recorded footprint becomes `b.size`
and `b` is unlinked — or splits it, placing the new free block at
`b.addr + tot` with size `b.size - tot` in `b`'s position, which keeps the
free list in ascending address order. -/
theorem allocate_split_or_consume (s : AllocatorState) (size alignment : Nat)
    (b : Block) (adj tot : Nat) (l1 l2 : List Block)
    (hfb : findBest size alignment s.freeList none = some (b, adj, tot))
    (hdec : s.freeList = l1 ++ b :: l2)
    (hord : ordered s.freeList) :
    (b.size ≤ tot + sizeofAllocationHeader →
      ∀ s2 p, Allocate s size alignment = .ok (s2, p) →
        p = b.addr + adj ∧ s2.freeList = l1 ++ l2 ∧
        lookupHeader s2.headers p = some ⟨b.size, adj⟩) ∧
    (tot + sizeofAllocationHeader < b.size →
      ∀ s2 p, Allocate s size alignment = .ok (s2, p) →
        p = b.addr + adj ∧
        s2.freeList = l1 ++ (⟨b.addr + tot, b.size - tot⟩ : Block) :: l2 ∧
        lookupHeader s2.headers p = some ⟨tot, adj⟩ ∧
        ordered s2.freeList) ∧
    (∀ e, Allocate s size alignment ≠ .error e) := by
  have hsound := findBest_sound size alignment s.freeList none (b, adj, tot) hfb
  rcases hsound with hsound | ⟨-, hqual0, -, htot0⟩
  · cases hsound
  have hqual : size + align_forward_adjustment_with_header b.addr alignment +
      sizeofAllocationHeader < b.size := hqual0
  have htot : tot = size + adj + sizeofAllocationHeader := htot0
  have haddr : ∀ x ∈ l1, x.addr ≠ b.addr := by
    intro x hx
    exact Nat.ne_of_lt (ordered_prefix_lt l1 l2 b (hdec ▸ hord) x hx)
  refine ⟨?_, ?_, ?_⟩
  · intro hcase s2 p h
    unfold Allocate at h
    rw [hfb] at h
    dsimp only at h
    rw [if_pos hcase] at h
    simp only [Except.ok.injEq, Prod.mk.injEq] at h
    obtain ⟨hs2, hp⟩ := h
    subst hs2
    subst hp
    refine ⟨rfl, ?_, ?_⟩
    · rw [hdec]
      exact removeBlock_append l1 l2 b haddr
    · simp [lookupHeader]
  · intro hcase s2 p h
    unfold Allocate at h
    rw [hfb] at h
    dsimp only at h
    rw [if_neg (by omega)] at h
    simp only [Except.ok.injEq, Prod.mk.injEq] at h
    obtain ⟨hs2, hp⟩ := h
    subst hs2
    subst hp
    refine ⟨rfl, ?_, by simp [lookupHeader], ?_⟩
    · rw [hdec]
      exact replaceBlock_append l1 l2 b _ haddr
    · show ordered (replaceBlock s.freeList b.addr ⟨b.addr + tot, b.size - tot⟩)
      rw [hdec, replaceBlock_append l1 l2 b _ haddr]
      apply ordered_replace l1 l2 b _ (hdec ▸ hord)
      · exact Nat.le_add_right _ _
      · show b.addr + tot + (b.size - tot) ≤ b.addr + b.size
        omega
      · show 0 < b.size - tot
        omega
  · intro e h
    unfold Allocate at h
    rw [hfb] at h
    dsimp only at h
    split at h <;> cases h

/-- Concrete instantiation of the carve theorem: allocating 8 bytes from
the single 300-byte block splits it, leaving a 260-byte block at 4136. -/
theorem allocate_split_or_consume_witness :
    (4112 : Nat) = 4096 + 16 ∧
      demoState2.freeList = [] ++ (⟨4096 + 40, 300 - 40⟩ : Block) :: [] ∧
      lookupHeader demoState2.headers 4112 = some ⟨40, 16⟩ ∧
      ordered demoState2.freeList := by
  have h := (allocate_split_or_consume demoState 8 8 ⟨4096, 300⟩ 16 40 [] []
    rfl rfl (List.chain'_singleton _)).2.1 (by decide) demoState2 4112 rfl
  exact ⟨by omega, h.2.1, h.2.2.1, h.2.2.2⟩

/-- C5.  Three contiguous equal-size allocations A, B, C (payloads 4112,
4152, 4192) followed by freeing B then A then C, or A then B then C, leave
the free list holding exactly one block whose size is the arena's original
capacity 300: backward and forward coalescing in `Free` merge every
adjacent pair.  The last two conjuncts replay the same two runs in the
word-granularity model below, where the head record at 4096 holds size 300
and a null `next`, confirming the list-model result against raw memory. -/
theorem free_coalescing_scenario :
    c5Alloc3 = some (4112, 4152, 4192) ∧
    c5Run [4152, 4112, 4192] = some [⟨4096, 300⟩] ∧
    c5Run [4112, 4152, 4192] = some [⟨4096, 300⟩] ∧
    (c5RunM [4152, 4112, 4192]).map
      (fun s => (s.m_freeBlocks, s.mem 4096, s.mem (4096 + 8))) = some (4096, 300, 0) ∧
    (c5RunM [4112, 4152, 4192]).map
      (fun s => (s.m_freeBlocks, s.mem 4096, s.mem (4096 + 8))) = some (4096, 300, 0) :=
  ⟨rfl, rfl, rfl, rfl, rfl⟩

/-- C6.  Each successful `Allocate` increments `m_numAllocations` by one
and grows `m_usedBytes` by exactly the footprint recorded in the returned
header; each `Free` of a live allocation decrements the count by one and
shrinks `m_usedBytes` by the footprint recovered from that header; hence a
run whose final header table is empty — every allocation was matched by a
free of its pointer — ends with `GetUsed() = 0` and
`GetNumAllocation() = 0`. -/
theorem counters_balanced :
    (∀ (s : AllocatorState) (size alignment : Nat) (s2 : AllocatorState) (p : Nat),
      Allocate s size alignment = .ok (s2, p) →
        s2.m_numAllocations = s.m_numAllocations + 1 ∧
        (lookupHeader s2.headers p).isSome = true ∧
        ∀ hd, lookupHeader s2.headers p = some hd →
          s2.m_usedBytes = s.m_usedBytes + hd.size) ∧
    (∀ (s : AllocatorState) (ptr : Nat) (hd : AllocationHeader) (s2 : AllocatorState),
      CountersInv s → lookupHeader s.headers ptr = some hd → Free s ptr = .ok s2 →
        s2.m_numAllocations + 1 = s.m_numAllocations ∧
        s2.m_usedBytes + hd.size = s.m_usedBytes) ∧
    (∀ (s0 : AllocatorState) (ops : List Op) (s : AllocatorState),
      CountersInv s0 → run s0 ops = .ok s → s.headers = [] →
        s.m_usedBytes = 0 ∧ s.m_numAllocations = 0) := by
  refine ⟨?_, ?_, ?_⟩
  · intro s size alignment s2 p h
    obtain ⟨h1, h2, h3⟩ := Allocate_ok_shape s size alignment s2 p h
    exact ⟨h1, h3, h2⟩
  · intro s ptr hd s2 hinv hl h
    obtain ⟨h1, h2, -⟩ := Free_ok_shape s ptr hd hl s2 h
    obtain ⟨hu, hn⟩ := hinv
    have hle := lookupHeader_le_sum s.headers ptr hd hl
    have hpos := lookupHeader_length_pos s.headers ptr hd hl
    constructor
    · omega
    · omega
  · intro s0 ops s hinv hrun hempty
    obtain ⟨hu, hn⟩ := run_inv ops s0 s hinv hrun
    rw [hempty] at hu hn
    simp only [sumFootprints, List.map_nil, List.sum_nil, List.length_nil] at hu hn
    exact ⟨hu, hn⟩

/-- Concrete instantiation of the counter theorem: one allocation and its
matching free on the demo arena end with both counters at zero. -/
theorem counters_balanced_witness :
    demoState3.m_usedBytes = 0 ∧ demoState3.m_numAllocations = 0 :=
  counters_balanced.2.2 demoState [Op.alloc 8 8, Op.dealloc 4112] demoState3
    ⟨rfl, rfl⟩ rfl rfl

/-- C8, counterexample.  The `size` fields are C `int`, not pointer-width:
the address-space value `2 ^ 31` is stored as the negative value
`-2 ^ 31`, so the property as stated fails. -/
theorem size_fields_not_pointer_width : ¬ SizeFieldsPointerWidth := by
  intro h
  have h1 := (h (2 ^ 31) (by norm_num)).1
  unfold intSizeFieldStore at h1
  norm_num at h1

/-- C8, amended.  `adjustment` is pointer-width and stores every 64-bit
value exactly, but the `int` `size` fields of `FreeBlock` and
`AllocationHeader` store a footprint exactly only when it is below
`2 ^ 31`. -/
theorem size_fields_amended :
    (∀ n : Nat, n < 2 ^ 31 → intSizeFieldStore n = (n : Int)) ∧
    (∀ n : Nat, n < 2 ^ 64 → uintptrFieldStore n = n) := by
  constructor
  · intro n hn
    unfold intSizeFieldStore
    rw [Nat.mod_eq_of_lt (by omega : n < 2 ^ 32), if_pos hn]
    simp
  · intro n hn
    exact Nat.mod_eq_of_lt hn

/-- Concrete instantiation of the amended field theorem at the footprints
of the demo scenario. -/
theorem size_fields_amended_witness :
    intSizeFieldStore 300 = (300 : Int) ∧ uintptrFieldStore 4096 = 4096 :=
  ⟨size_fields_amended.1 300 (by norm_num), size_fields_amended.2 4096 (by norm_num)⟩

/-- C9.  For bindings over fixed-arena allocators, `operator==` returns
true if and only if both reference allocators with the same arena start
address; bindings over the same arena compare equal and bindings over
arenas with distinct start addresses compare unequal. -/
theorem adaptor_equality :
    (∀ a b : AllocatorState, STLAdaptor_beq a b = true ↔ a.m_start = b.m_start) ∧
    (∀ a : AllocatorState, STLAdaptor_beq a a = true) ∧
    (∀ a b : AllocatorState, a.m_start ≠ b.m_start → STLAdaptor_beq a b = false) := by
  refine ⟨?_, ?_, ?_⟩
  · intro a b
    simp [STLAdaptor_beq]
  · intro a
    simp [STLAdaptor_beq]
  · intro a b hne
    simp [STLAdaptor_beq, hne]

/-- Concrete instantiation of the binding-equality theorem: two bindings
over the demo arena compare equal, bindings over the demo arena and an
arena at 8192 compare unequal. -/
theorem adaptor_equality_witness :
    STLAdaptor_beq demoState demoState = true ∧
      STLAdaptor_beq demoState demoStateB = false :=
  ⟨adaptor_equality.2.1 demoState,
    adaptor_equality.2.2 demoState demoStateB (by decide)⟩

/-- C10.  Construction requires the backing size to strictly exceed
`sizeof(FreeBlock)` — failing the assertion for every size up to and
including `sizeof(FreeBlock)`, a strictly stronger requirement than the
base class's nonzero-size assertion — and a successful construction
starts with exactly one free block at the arena start spanning the whole
arena, no live allocations and zero used bytes. -/
theorem constructor_postcondition (sizeBytes start : Nat) (m : Nat → Nat) :
    (sizeofFreeBlock < sizeBytes →
      ∀ s, mkFreeListAllocator sizeBytes start m = some s →
        s.freeList = [⟨start, sizeBytes⟩] ∧ s.m_usedBytes = 0 ∧
        s.m_numAllocations = 0 ∧ s.m_size = sizeBytes ∧ s.m_start = start) ∧
    (sizeofFreeBlock < sizeBytes →
      (mkFreeListAllocator sizeBytes start m).isSome = true) ∧
    (sizeBytes ≤ sizeofFreeBlock → mkFreeListAllocator sizeBytes start m = none) := by
  have h24 : sizeofFreeBlock = 24 := rfl
  refine ⟨?_, ?_, ?_⟩
  · intro hgt s hs
    unfold mkFreeListAllocator at hs
    rw [if_pos (by omega), if_pos hgt] at hs
    simp only [Option.some_inj] at hs
    subst hs
    exact ⟨rfl, rfl, rfl, rfl, rfl⟩
  · intro hgt
    unfold mkFreeListAllocator
    rw [if_pos (by omega), if_pos hgt]
    rfl
  · intro hle
    unfold mkFreeListAllocator
    by_cases h0 : sizeBytes > 0
    · rw [if_pos h0, if_neg (by omega)]
    · rw [if_neg h0]

/-- Concrete instantiation of the constructor theorem: a 300-byte arena at
4096 constructs with the expected single free block, and arenas of 24 and
10 bytes fail the assertion. -/
theorem constructor_postcondition_witness :
    ((mkFreeListAllocator 300 4096 (fun _ => 0)).isSome = true ∧
      mkFreeListAllocator 24 4096 (fun _ => 0) = none ∧
      mkFreeListAllocator 10 4096 (fun _ => 0) = none) ∧
    demoInit.freeList = [⟨4096, 300⟩] ∧ demoInit.m_usedBytes = 0 ∧
      demoInit.m_numAllocations = 0 ∧ demoInit.m_size = 300 ∧ demoInit.m_start = 4096 :=
  ⟨⟨(constructor_postcondition 300 4096 (fun _ => 0)).2.1 (by decide),
      (constructor_postcondition 24 4096 (fun _ => 0)).2.2 (by decide),
      (constructor_postcondition 10 4096 (fun _ => 0)).2.2 (by decide)⟩,
    (constructor_postcondition 300 4096 (fun _ => 0)).1 (by decide) demoInit rfl⟩

end FreeListAlloc

namespace MemModel

/-- C7.  The zero-on-free of the claim does not happen in the code.  `Free`
re-reads `header->adjustment` (line 217) after the `FreeBlock` record
stores of lines 179-182 overwrote that word with the record's `next`
pointer, so the zero range starts at `blockStart` plus a pointer value
instead of the original adjustment.  Evaluated on concrete runs: in the
claim's own round-trip scenario (fresh 300-byte arena at 4096,
`Allocate(8,8)` returns 4112, pattern written, `Free`), the forward
coalesce first nulls that word, the zero pass then starts at `blockStart`
and wipes the head `FreeBlock` record (its `size` and `next` words read
back 0), and the re-`Allocate` finds no qualifying block and throws
`bad_alloc` instead of returning zero-filled memory; and in a free with a
non-adjacent successor (two `Allocate(24,8)`, pattern 170 written at
4128 inside the first payload, first freed) the word re-read is the
successor pointer 4208, the zero range is empty, and the stale pattern
survives inside freed memory. -/
theorem zero_on_free_header_clobber :
    (AllocateM (mkMState 300 4096) 8 8).map (fun r => r.2) = some 4112 ∧
    freedStateM.map (fun s => (s.m_freeBlocks, s.mem 4096, s.mem (4096 + 8))) =
      some (4096, 0, 0) ∧
    roundTripM = none ∧
    freeSkipZeroM.map (fun s => (s.mem 4128, s.m_freeBlocks, s.mem (4096 + 8))) =
      some (170, 4096, 4208) :=
  ⟨rfl, rfl, rfl, rfl⟩

end MemModel
